import Mathlib

/-!
# Verification of the hermes-relay deduplication core

A shallow embedding of `src/hermes-relay.py` (fingerprinting, historical
ledger reader, ingestion filter, run output writer) together with the
run-date key computation of `src/llm_score_and_summarize.py`, and proofs
of the specified properties of the deduplication pipeline.

Machine details modelled exactly: Python's `hashlib.sha256(...).hexdigest()`
over UTF-8 bytes, `str.strip()` over the Unicode whitespace set, `dict.get`
defaulting, and the exception behaviour of the ledger reader (which catches
only `FileNotFoundError` and `json.JSONDecodeError`).
-/

namespace HermesRelay

/-! ## SHA-256 (hashlib.sha256(...).hexdigest() over UTF-8 bytes)

An executable SHA-256 over `Nat` with explicit reduction mod 2^32, validated
against the FIPS test vectors.  All recursion is structural so that concrete
digests evaluate inside the kernel. -/

/-- Reduce a natural number to a 32-bit word. -/
def w32 (n : Nat) : Nat := n % 4294967296

/-- Right rotation of a 32-bit word. -/
def rotr (n x : Nat) : Nat := w32 ((x >>> n) ||| (x <<< (32 - n)))

def shaCh (x y z : Nat) : Nat := (x &&& y) ^^^ ((x ^^^ 4294967295) &&& z)

def shaMaj (x y z : Nat) : Nat := (x &&& y) ^^^ (x &&& z) ^^^ (y &&& z)

def bsig0 (x : Nat) : Nat := rotr 2 x ^^^ rotr 13 x ^^^ rotr 22 x

def bsig1 (x : Nat) : Nat := rotr 6 x ^^^ rotr 11 x ^^^ rotr 25 x

def ssig0 (x : Nat) : Nat := rotr 7 x ^^^ rotr 18 x ^^^ (x >>> 3)

def ssig1 (x : Nat) : Nat := rotr 17 x ^^^ rotr 19 x ^^^ (x >>> 10)

/-- Round constants of SHA-256: the fractional parts of the cube roots of
the first sixty-four primes (FIPS 180-4 section 4.2.2), here in decimal. -/
def shaK : List Nat :=
  [1116352408, 1899447441, 3049323471, 3921009573,
   961987163, 1508970993, 2453635748, 2870763221,
   3624381080, 310598401, 607225278, 1426881987,
   1925078388, 2162078206, 2614888103, 3248222580,
   3835390401, 4022224774, 264347078, 604807628,
   770255983, 1249150122, 1555081692, 1996064986,
   2554220882, 2821834349, 2952996808, 3210313671,
   3336571891, 3584528711, 113926993, 338241895,
   666307205, 773529912, 1294757372, 1396182291,
   1695183700, 1986661051, 2177026350, 2456956037,
   2730485921, 2820302411, 3259730800, 3345764771,
   3516065817, 3600352804, 4094571909, 275423344,
   430227734, 506948616, 659060556, 883997877,
   958139571, 1322822218, 1537002063, 1747873779,
   1955562222, 2024104815, 2227730452, 2361852424,
   2428436474, 2756734187, 3204031479, 3329325298]

/-- Working state of the SHA-256 compression function (registers a..h). -/
structure Sha8 where
  a : Nat
  b : Nat
  c : Nat
  d : Nat
  e : Nat
  f : Nat
  g : Nat
  hh : Nat
deriving DecidableEq

def shaInit : Sha8 :=
  ⟨1779033703, 3144134277, 1013904242, 2773480762,
   1359893119, 2600822924, 528734635, 1541459225⟩

def roundStep (s : Sha8) (kw : Nat × Nat) : Sha8 :=
  let t1 := w32 (s.hh + bsig1 s.e + shaCh s.e s.f s.g + kw.1 + kw.2)
  let t2 := w32 (bsig0 s.a + shaMaj s.a s.b s.c)
  ⟨w32 (t1 + t2), s.a, s.b, s.c, w32 (s.d + t1), s.e, s.f, s.g⟩

/-- Extend a 16-word block towards the 64-word message schedule; the first
argument is the number of remaining extension steps (48 for SHA-256). -/
def extendW : Nat → List Nat → List Nat
  | 0, ws => ws
  | n + 1, ws =>
      let len := ws.length
      let next := w32 (ssig1 (ws.getD (len - 2) 0) + ws.getD (len - 7) 0 +
                       ssig0 (ws.getD (len - 15) 0) + ws.getD (len - 16) 0)
      extendW n (ws ++ [next])

def compressBlock (s : Sha8) (block : List Nat) : Sha8 :=
  let w := extendW 48 block
  let r := (shaK.zip w).foldl roundStep s
  ⟨w32 (s.a + r.a), w32 (s.b + r.b), w32 (s.c + r.c), w32 (s.d + r.d),
   w32 (s.e + r.e), w32 (s.f + r.f), w32 (s.g + r.g), w32 (s.hh + r.hh)⟩

/-- Big-endian 4-byte grouping of a byte list into 32-bit words. -/
def bytesToWords : List Nat → List Nat
  | b1 :: b2 :: b3 :: b4 :: rest =>
      (((b1 * 256 + b2) * 256 + b3) * 256 + b4) :: bytesToWords rest
  | _ => []

/-- Split a word list into 16-word blocks; the first argument is fuel. -/
def wchunks : Nat → List Nat → List (List Nat)
  | 0, _ => []
  | _, [] => []
  | fuel + 1, l => l.take 16 :: wchunks fuel (l.drop 16)

/-- Big-endian 8-byte encoding of the bit length (mod 2^64). -/
def lenBytes (n : Nat) : List Nat :=
  let m := n % 18446744073709551616
  [m >>> 56 &&& 255, m >>> 48 &&& 255, m >>> 40 &&& 255, m >>> 32 &&& 255,
   m >>> 24 &&& 255, m >>> 16 &&& 255, m >>> 8 &&& 255, m &&& 255]

/-- SHA-256 padding: append 0x80, zeros up to 56 mod 64 bytes, then the
64-bit big-endian bit length. -/
def padBytes (msg : List Nat) : List Nat :=
  let z := (119 - msg.length % 64) % 64
  msg ++ 128 :: List.replicate z 0 ++ lenBytes (msg.length * 8)

/-- UTF-8 encoding of a single character, as in Python's str.encode. -/
def utf8Bytes (c : Char) : List Nat :=
  let n := c.toNat
  if n < 128 then [n]
  else if n < 2048 then [192 ||| (n >>> 6), 128 ||| (n &&& 63)]
  else if n < 65536 then
    [224 ||| (n >>> 12), 128 ||| ((n >>> 6) &&& 63), 128 ||| (n &&& 63)]
  else
    [240 ||| (n >>> 18), 128 ||| ((n >>> 12) &&& 63), 128 ||| ((n >>> 6) &&& 63), 128 ||| (n &&& 63)]

/-- UTF-8 bytes of a string. -/
def strBytes (s : String) : List Nat :=
  s.data.foldr (fun c acc => utf8Bytes c ++ acc) []

def hexChar (n : Nat) : Char := "0123456789abcdef".data.getD n 'x'

/-- Lowercase hex rendering of a 32-bit word, 8 digits. -/
def wordHex (n : Nat) : List Char :=
  [hexChar (n >>> 28 &&& 15), hexChar (n >>> 24 &&& 15), hexChar (n >>> 20 &&& 15),
   hexChar (n >>> 16 &&& 15), hexChar (n >>> 12 &&& 15), hexChar (n >>> 8 &&& 15),
   hexChar (n >>> 4 &&& 15), hexChar (n &&& 15)]

/-- SHA-256 hex digest of a string's UTF-8 bytes,
as hashlib.sha256(s.encode("utf-8")).hexdigest(). -/
def sha256hex (s : String) : String :=
  let msg := strBytes s
  let ws := bytesToWords (padBytes msg)
  let fin := (wchunks ws.length ws).foldl compressBlock shaInit
  ⟨wordHex fin.a ++ wordHex fin.b ++ wordHex fin.c ++ wordHex fin.d ++
   wordHex fin.e ++ wordHex fin.f ++ wordHex fin.g ++ wordHex fin.hh⟩

/-! ## Python str.strip()

`str.strip()` with no argument removes leading and trailing characters whose
Unicode database entry marks them as whitespace; the set below is CPython's. -/

/-- Python's str.isspace character class (the set used by str.strip()). -/
def pySpace (c : Char) : Bool :=
  let n := c.toNat
  decide ((9 ≤ n ∧ n ≤ 13) ∨ (28 ≤ n ∧ n ≤ 32) ∨ n = 133 ∨ n = 160 ∨ n = 5760 ∨
          (8192 ≤ n ∧ n ≤ 8202) ∨ n = 8232 ∨ n = 8233 ∨ n = 8239 ∨ n = 8287 ∨ n = 12288)

/-- Remove leading and trailing Python whitespace from a character list. -/
def stripChars (l : List Char) : List Char :=
  ((l.dropWhile pySpace).reverse.dropWhile pySpace).reverse

/-- Python's s.strip(). -/
def strip (s : String) : String := ⟨stripChars s.data⟩

/-! ## The fingerprint function (hash_item, src/hermes-relay.py lines 29-32)

`key = f"{title}-{link}"; sha256(key.encode("utf-8")).hexdigest()`.
Note that hash_item itself performs no trimming; its two call sites strip
their arguments before calling it. -/

/-- hash_item from src/hermes-relay.py: the dedup fingerprint. -/
def hash_item (title link : String) : String :=
  sha256hex (title ++ "-" ++ link)

end HermesRelay

namespace HermesRelay

/-! ## Data model

JSON values as stored in the ledger files, Python-level read errors, and the
contents a ledger file can present to the reader. -/

/-- A JSON value, as produced by json.load. -/
inductive Json where
  | null
  | bool (b : Bool)
  | num (n : Int)
  | str (s : String)
  | arr (elems : List Json)
  | obj (fields : List (String × Json))

/-- Uncaught Python exceptions that the ledger reader can raise.
The except clause in load_previous_articles catches only FileNotFoundError
and json.JSONDecodeError; these three propagate and abort the run. -/
inductive PyErr where
  /-- AttributeError: calling .strip() or .get(...) on a non-string/non-dict. -/
  | attrError
  /-- TypeError: iterating a JSON value that is not iterable. -/
  | typeError
  /-- UnicodeDecodeError: the file's bytes are not valid UTF-8. -/
  | unicodeError
deriving DecidableEq

/-- What one ledger file presents to `open` + `json.load`. -/
inductive FileContent where
  /-- The file vanished between glob and open: FileNotFoundError (caught). -/
  | missing
  /-- The bytes are not valid JSON: json.JSONDecodeError (caught). -/
  | badJson
  /-- The bytes are not valid UTF-8: UnicodeDecodeError (not caught). -/
  | badEncoding
  /-- json.load succeeds and yields this value. -/
  | content (j : Json)

/-- The ledger storage: the hermes_signal_*.json files, as (name, content)
pairs in the order the reader scans them. -/
abbrev Storage := List (String × FileContent)

/-- An admitted article record, with the four fields the pipeline stores. -/
structure Article where
  title : String
  link : String
  published : String
  summary : String
deriving DecidableEq

/-- A raw feed entry as exposed by feedparser: every field optional
(item.get returns the default when the key is absent). -/
structure RawEntry where
  title? : Option String
  link? : Option String
  published? : Option String
  updated? : Option String
  summary? : Option String
deriving DecidableEq

/-! ## Historical Ledger Reader (load_previous_articles, lines 34-62)

The reader's per-article work, faithfully sequencing Python's evaluation:
`article.get("title", "").strip()` raises AttributeError when the value
under the key is not a string or when `article` is not a dict. -/

/-- Python dict lookup on a JSON object (first binding wins). -/
def jLookup (fields : List (String × Json)) (k : String) : Option Json :=
  (fields.find? (fun kv => kv.1 == k)).map (fun kv => kv.2)

/-- article.get(k, ""): the stored value if the key is present, else "". -/
def getField (fields : List (String × Json)) (k : String) : Json :=
  (jLookup fields k).getD (.str "")

/-- Calling .strip() on the looked-up value: AttributeError unless a string. -/
def asStr : Json → Except PyErr String
  | .str s => .ok s
  | _ => .error .attrError

/-- One iteration of the reader's article loop: returns the (trimmed title,
trimmed link) pair when both are non-empty, none when the article is dropped,
and an error when Python would raise. -/
def articlePair (j : Json) : Except PyErr (Option (String × String)) :=
  match j with
  | .obj fields =>
      match asStr (getField fields "title") with
      | .error e => .error e
      | .ok t0 =>
          let t := strip t0
          match asStr (getField fields "link") with
          | .error e => .error e
          | .ok l0 =>
              let l := strip l0
              if t ≠ "" ∧ l ≠ "" then .ok (some (t, l)) else .ok none
  | _ => .error .attrError

/-- The reader's loop over the elements of a decoded JSON array. -/
def arrPairs : List Json → Except PyErr (List (String × String))
  | [] => .ok []
  | e :: rest =>
      match articlePair e with
      | .error err => .error err
      | .ok p =>
          match arrPairs rest with
          | .error err => .error err
          | .ok ps =>
              match p with
              | some q => .ok (q :: ps)
              | none => .ok ps

/-- `for article in articles:` over an arbitrary decoded JSON value.
A list iterates its elements; a dict iterates its keys (strings, whose .get
raises AttributeError) and an empty dict iterates nothing; a string iterates
its characters likewise; null/bool/number raise TypeError. -/
def jsonPairs : Json → Except PyErr (List (String × String))
  | .arr elems => arrPairs elems
  | .obj fields => if fields.isEmpty then .ok [] else .error .attrError
  | .str s => if s = "" then .ok [] else .error .attrError
  | _ => .error .typeError

/-- Result of the try-block body for a single ledger file. -/
inductive ReadOutcome where
  /-- Exception caught by `except (FileNotFoundError, json.JSONDecodeError)`:
  warning printed, file skipped. -/
  | caught
  /-- Uncaught exception: propagates out of load_previous_articles. -/
  | failed (e : PyErr)
  /-- File read and decoded; these (title, link) pairs passed the filter. -/
  | ok (ps : List (String × String))

/-- Reading one ledger file inside the reader's try block. -/
def readFilePairs : FileContent → ReadOutcome
  | .missing => .caught
  | .badJson => .caught
  | .badEncoding => .failed .unicodeError
  | .content j =>
      match jsonPairs j with
      | .ok ps => .ok ps
      | .error e => .failed e

/-- The reader's file loop.  An uncaught exception aborts the whole call, so
the partially accumulated set is never observable; accumulating per file is
therefore equivalent to the source's per-article set.add. -/
def loadLoop : List (String × FileContent) → String → Finset String → Nat →
    Except PyErr (Finset String × Nat)
  | [], _, s, n => .ok (s, n)
  | (name, c) :: rest, excl, s, n =>
      if name = excl then loadLoop rest excl s n
      else
        match readFilePairs c with
        | .caught => loadLoop rest excl s n
        | .failed e => .error e
        | .ok ps =>
            loadLoop rest excl
              (ps.foldl (fun acc q => insert (hash_item q.1 q.2) acc) s) (n + ps.length)

/-- load_previous_articles: reconstruct the seen-set from all prior ledger
files, skipping the one named `output_json` (today's file). -/
def load_previous_articles (files : Storage) (output_json : String) :
    Except PyErr (Finset String × Nat) :=
  loadLoop files output_json ∅ 0

/-! ## Ingestion Filter (fetch_and_parse, lines 64-104) -/

/-- The module-level mutable state of hermes-relay.py during one run:
seen_hashes, all_items, and the two counters. -/
structure IngestState where
  seen : Finset String
  all_items : List Article
  new_count : Nat
  skipped_count : Nat
deriving DecidableEq

/-- The body of the per-entry loop of fetch_and_parse. -/
def processItem (st : IngestState) (item : RawEntry) : IngestState :=
  let title := strip (item.title?.getD "")
  let link := strip (item.link?.getD "")
  let published := item.published?.getD (item.updated?.getD "")
  let summary := item.summary?.getD ""
  if title = "" ∨ link = "" then st
  else
    let uid := hash_item title link
    if uid ∈ st.seen then { st with skipped_count := st.skipped_count + 1 }
    else
      { st with
        seen := insert uid st.seen
        new_count := st.new_count + 1
        all_items := st.all_items ++ [⟨title, link, published, summary⟩] }

/-- One feed source: either the entries feedparser produced, or a
retrieval/parse failure raised while processing that source. -/
abbrev FeedResult := Except Unit (List RawEntry)

/-- The per-source body of fetch_and_parse: the whole source is wrapped in
try/except Exception, so a failing source leaves the state untouched. -/
def processFeed (st : IngestState) (feed : FeedResult) : IngestState :=
  match feed with
  | .error _ => st
  | .ok entries => entries.foldl processItem st

/-- The feed loop of fetch_and_parse, starting from the freshly loaded
previous_hashes (seen_hashes = set() updated with previous_hashes,
all_items = [], both counters zero). -/
def fetchLoop (feeds : List FeedResult) (previous_hashes : Finset String) : IngestState :=
  feeds.foldl processFeed
    { seen := previous_hashes, all_items := [], new_count := 0, skipped_count := 0 }

/-- fetch_and_parse: load the historical seen-set (lines 66-68), then filter
every feed entry through it. -/
def fetch_and_parse (files : Storage) (output_json : String)
    (feeds : List FeedResult) : Except PyErr IngestState :=
  match load_previous_articles files output_json with
  | .error e => .error e
  | .ok prev => .ok (fetchLoop feeds prev.1)

/-! ## Run Output Writer (save_output, lines 106-114) -/

/-- json.dump serialization of one article (the four keys written). -/
def serializeArticle (a : Article) : Json :=
  .obj [("title", .str a.title), ("link", .str a.link),
        ("published", .str a.published), ("summary", .str a.summary)]

/-- json.dump serialization of all_items. -/
def serialize (items : List Article) : Json :=
  .arr (items.map serializeArticle)

/-- Filesystem write with overwrite semantics: replace any file of the same
name, touch no other file. -/
def writeFile (σ : Storage) (k : String) (v : FileContent) : Storage :=
  (σ.filter fun p => decide (p.1 ≠ k)) ++ [(k, v)]

/-- save_output: write nothing when all_items is empty, else write the one
file OUTPUT_JSON containing the serialized all_items. -/
def save_output (output_json : String) (all_items : List Article) (σ : Storage) : Storage :=
  if all_items = [] then σ
  else writeFile σ output_json (.content (serialize all_items))

/-- Read a file by name (first match, as a filesystem has unique names). -/
def lookupFile (σ : Storage) (k : String) : Option FileContent :=
  ((σ.find? fun p => p.1 == k).map fun p => p.2)

/-! ## Whole runs (the __main__ block: fetch_and_parse then save_output) -/

/-- One pipeline invocation on a given calendar day: load all prior entries
except today's, ingest the feeds, write at most one new entry. -/
def runOnce (σ : Storage) (output_json : String) (feeds : List FeedResult) :
    Except PyErr Storage :=
  match fetch_and_parse σ output_json feeds with
  | .error e => .error e
  | .ok st => .ok (save_output output_json st.all_items σ)

/-- A sequence of pipeline runs, each with its own output file name (run
date) and its own feed outcomes. -/
def runAll : List (String × List FeedResult) → Storage → Except PyErr Storage
  | [], σ => .ok σ
  | (key, feeds) :: rest, σ =>
      match runOnce σ key feeds with
      | .error e => .error e
      | .ok σ' => runAll rest σ'

end HermesRelay

namespace HermesRelay

/-! ## Declarative views used to state the properties

These definitions restate, set-theoretically, what the reader and the
ledger contain; the theorems below connect them to the operational
definitions translated from the source. -/

/-- An article whose identifying fields are non-empty and already trimmed. -/
def TrimmedA (a : Article) : Prop :=
  a.title ≠ "" ∧ a.link ≠ "" ∧ strip a.title = a.title ∧ strip a.link = a.link

/-- The identity of an article: its (title, link) pair. -/
def pairOfA (a : Article) : String × String := (a.title, a.link)

/-- The fingerprint of a stored article. -/
def fpOfA (a : Article) : String := hash_item a.title a.link

/-- The (trimmed title, trimmed link) identity of one stored JSON article,
when it has string title/link fields that are non-empty after trimming. -/
def pairOfJson (j : Json) : Option (String × String) :=
  match j with
  | .obj fields =>
      match getField fields "title", getField fields "link" with
      | .str t, .str l =>
          if strip t ≠ "" ∧ strip l ≠ "" then some (strip t, strip l) else none
      | _, _ => none
  | _ => none

/-- The identities of the articles a ledger file contributes. -/
def filePairsD : FileContent → List (String × String)
  | .content (.arr elems) => elems.filterMap pairOfJson
  | _ => []

/-- All article identities across all entries of the ledger. -/
def allPairs (σ : Storage) : List (String × String) :=
  σ.flatMap fun p => filePairsD p.2

/-- A JSON object whose value under key k, if present, is a string. -/
def strOrAbsentB (fields : List (String × Json)) (k : String) : Bool :=
  match jLookup fields k with
  | none => true
  | some (.str _) => true
  | some _ => false

/-- One stored article of readable shape: a dict whose title and link
values, if present, are strings. -/
def articleObjB : Json → Bool
  | .obj fields => strOrAbsentB fields "title" && strOrAbsentB fields "link"
  | _ => false

/-- A decoded ledger value of the shape the reader can fully process. -/
def wellShapedB : Json → Bool
  | .arr elems => elems.all articleObjB
  | _ => false

/-- A ledger file the reader processes without raising: decodes to a
well-shaped array. -/
def goodFileB : FileContent → Bool
  | .content j => wellShapedB j
  | _ => false

/-- A ledger file whose failure the reader's except clause catches. -/
def skipFileB : FileContent → Bool
  | .missing => true
  | .badJson => true
  | _ => false

/-- The fingerprints contributed by the good, non-excluded ledger files, as
a list in scan order. -/
def seenListOf (σ : Storage) (excl : String) : List String :=
  (σ.filter fun p => decide (p.1 ≠ excl) && goodFileB p.2).flatMap
    fun p => (filePairsD p.2).map fun q => hash_item q.1 q.2

/-- The seen-set the reader is specified to reconstruct. -/
def seenSetOf (σ : Storage) (excl : String) : Finset String :=
  (seenListOf σ excl).toFinset

/-- The reader's diagnostic article count. -/
def seenCountOf (σ : Storage) (excl : String) : Nat :=
  (seenListOf σ excl).length

/-- Every file of the ledger is an entry our writer could have produced:
serialized articles with trimmed, non-empty identifying fields; and no two
articles anywhere in the ledger share an identity. -/
def GoodStorage (σ : Storage) : Prop :=
  (∀ p ∈ σ, ∃ items : List Article,
      p.2 = FileContent.content (serialize items) ∧ ∀ a ∈ items, TrimmedA a) ∧
  (allPairs σ).Nodup

/-! ## Run-date keys (C9)

src/hermes-relay.py line 22 keys the output file by
`datetime.utcnow().strftime("%Y-%m-%d")`; src/llm_score_and_summarize.py
lines 39 and 74 look today's file up by `date.today().isoformat()`, the
calendar date in the machine's local timezone.  An instant is modelled as
whole minutes since 1970-01-01T00:00Z, a timezone as an offset in minutes. -/

/-- Gregorian calendar date for a day count since 1970-01-01
(standard civil-from-days algorithm). -/
def civilFromDays (z : Nat) : Nat × Nat × Nat :=
  let z := z + 719468
  let era := z / 146097
  let doe := z % 146097
  let yoe := (doe - doe / 1460 + doe / 36524 - doe / 146096) / 365
  let y := yoe + era * 400
  let doy := doe - (365 * yoe + yoe / 4 - yoe / 100)
  let mp := (5 * doy + 2) / 153
  let d := doy - (153 * mp + 2) / 5 + 1
  let m := if mp < 10 then mp + 3 else mp - 9
  (if m ≤ 2 then y + 1 else y, m, d)

def pad2 (n : Nat) : String := if n < 10 then "0" ++ toString n else toString n

/-- ISO 8601 rendering of a day count, "YYYY-MM-DD" (strftime "%Y-%m-%d"
and date.isoformat produce the identical text for a given calendar date). -/
def isoDate (days : Nat) : String :=
  let c := civilFromDays days
  toString c.1 ++ "-" ++ pad2 c.2.1 ++ "-" ++ pad2 c.2.2

/-- datetime.utcnow().strftime("%Y-%m-%d"): the UTC calendar date. -/
def utcToday (minutes : Nat) : String := isoDate (minutes / 1440)

/-- OUTPUT_JSON (hermes-relay.py line 23): the writer's ledger key. -/
def OUTPUT_JSON (minutes : Nat) : String :=
  "hermes_signal_" ++ utcToday minutes ++ ".json"

/-- date.today().isoformat(): the calendar date in the machine-local
timezone, offset tz minutes from UTC (clamped at the epoch). -/
def localToday (minutes : Nat) (tz : Int) : String :=
  isoDate (((minutes : Int) + tz).toNat / 1440)

/-- today_file (llm_score_and_summarize.py line 74): the key the downstream
summarization stage looks up for the current day. -/
def todayFile (minutes : Nat) (tz : Int) : String :=
  "hermes_signal_" ++ localToday minutes tz ++ ".json"

end HermesRelay

namespace HermesRelay

/-! ## Lemmas about str.strip() -/

theorem dropWhile_head_false {α : Type _} (p : α → Bool) :
    ∀ {l : List α} {a : α} {t : List α}, l.dropWhile p = a :: t → p a = false := by
  intro l
  induction l with
  | nil => intro a t h; simp [List.dropWhile] at h
  | cons b l ih =>
      intro a t h
      by_cases hb : p b
      · rw [List.dropWhile_cons, if_pos hb] at h
        exact ih h
      · rw [List.dropWhile_cons, if_neg hb] at h
        cases h
        simpa using hb

theorem dropWhile_idem {α : Type _} (p : α → Bool) (l : List α) :
    (l.dropWhile p).dropWhile p = l.dropWhile p := by
  induction l with
  | nil => rfl
  | cons a t ih =>
      by_cases h : p a
      · simp [List.dropWhile_cons, h, ih]
      · simp [List.dropWhile_cons, h]

theorem exists_append_dropWhile {α : Type _} (p : α → Bool) (l : List α) :
    ∃ t, t ++ l.dropWhile p = l := by
  induction l with
  | nil => exact ⟨[], rfl⟩
  | cons a l ih =>
      by_cases h : p a
      · obtain ⟨t, ht⟩ := ih
        exact ⟨a :: t, by simp [List.dropWhile_cons, h, ht]⟩
      · exact ⟨[], by simp [List.dropWhile_cons, h]⟩

theorem stripChars_idem (l : List Char) : stripChars (stripChars l) = stripChars l := by
  have hrev : (stripChars l).reverse = ((l.dropWhile pySpace).reverse).dropWhile pySpace :=
    List.reverse_reverse _
  have hA : (stripChars l).dropWhile pySpace = stripChars l := by
    obtain ⟨u, hu⟩ := exists_append_dropWhile pySpace (l.dropWhile pySpace).reverse
    have hL : l.dropWhile pySpace = stripChars l ++ u.reverse := by
      have h2 := congrArg List.reverse hu
      rw [List.reverse_append, List.reverse_reverse] at h2
      exact h2.symm
    rcases hS : stripChars l with _ | ⟨a, t⟩
    · rfl
    · have hpa : pySpace a = false := by
        apply dropWhile_head_false pySpace (l := l) (t := t ++ u.reverse)
        rw [hL, hS]
        rfl
      simp [List.dropWhile_cons, hpa]
  calc stripChars (stripChars l)
      = (((stripChars l).dropWhile pySpace).reverse.dropWhile pySpace).reverse := rfl
    _ = ((stripChars l).reverse.dropWhile pySpace).reverse := by rw [hA]
    _ = ((((l.dropWhile pySpace).reverse).dropWhile pySpace).dropWhile pySpace).reverse := by
          rw [hrev]
    _ = (((l.dropWhile pySpace).reverse).dropWhile pySpace).reverse := by rw [dropWhile_idem]
    _ = stripChars l := rfl

theorem strip_idem (s : String) : strip (strip s) = strip s :=
  congrArg String.mk (stripChars_idem s.data)

/-! ## A Finset accumulation lemma for the reader's set.add loop -/

theorem foldl_insert_eq_union {α : Type _} (f : α → String) :
    ∀ (l : List α) (s : Finset String),
      l.foldl (fun acc q => insert (f q) acc) s = s ∪ (l.map f).toFinset := by
  intro l
  induction l with
  | nil => intro s; simp
  | cons a t ih =>
      intro s
      rw [List.foldl_cons, ih, List.map_cons, List.toFinset_cons,
          Finset.insert_union, Finset.union_insert]

end HermesRelay

namespace HermesRelay

/-! ## Lemmas about the Historical Ledger Reader -/

theorem getField_str {fields : List (String × Json)} {k : String}
    (h : strOrAbsentB fields k = true) : ∃ s, getField fields k = Json.str s := by
  unfold strOrAbsentB at h
  cases hj : jLookup fields k with
  | none => exact ⟨"", by unfold getField; rw [hj]; rfl⟩
  | some j =>
      rw [hj] at h
      cases j with
      | str s => exact ⟨s, by unfold getField; rw [hj]; rfl⟩
      | null => simp at h
      | bool b => simp at h
      | num n => simp at h
      | arr es => simp at h
      | obj fs => simp at h

theorem articlePair_good : ∀ {j : Json}, articleObjB j = true →
    articlePair j = .ok (pairOfJson j) := by
  intro j h
  cases j with
  | obj fields =>
      simp only [articleObjB, Bool.and_eq_true] at h
      obtain ⟨t, hT⟩ := getField_str h.1
      obtain ⟨l, hL⟩ := getField_str h.2
      by_cases hc : strip t ≠ "" ∧ strip l ≠ ""
      · simp [articlePair, pairOfJson, hT, hL, asStr, hc]
      · simp [articlePair, pairOfJson, hT, hL, asStr, hc]
  | null => simp [articleObjB] at h
  | bool b => simp [articleObjB] at h
  | num n => simp [articleObjB] at h
  | str s => simp [articleObjB] at h
  | arr es => simp [articleObjB] at h

theorem arrPairs_good : ∀ {elems : List Json}, (∀ j ∈ elems, articleObjB j = true) →
    arrPairs elems = .ok (elems.filterMap pairOfJson) := by
  intro elems
  induction elems with
  | nil => intro _; rfl
  | cons e rest ih =>
      intro h
      have he := articlePair_good (h e (by simp))
      have hr := ih fun j hj => h j (by simp [hj])
      simp [arrPairs, he, hr, List.filterMap_cons]
      cases pairOfJson e <;> simp

theorem readFilePairs_good : ∀ {c : FileContent}, goodFileB c = true →
    readFilePairs c = .ok (filePairsD c) := by
  intro c h
  cases c with
  | content j =>
      cases j with
      | arr elems =>
          have hall : ∀ x ∈ elems, articleObjB x = true := by
            simp only [goodFileB, wellShapedB, List.all_eq_true] at h
            exact h
          simp [readFilePairs, jsonPairs, arrPairs_good hall, filePairsD]
      | null => simp [goodFileB, wellShapedB] at h
      | bool b => simp [goodFileB, wellShapedB] at h
      | num n => simp [goodFileB, wellShapedB] at h
      | str s => simp [goodFileB, wellShapedB] at h
      | obj fs => simp [goodFileB, wellShapedB] at h
  | missing => simp [goodFileB] at h
  | badJson => simp [goodFileB] at h
  | badEncoding => simp [goodFileB] at h

theorem seenListOf_cons_drop {name : String} {c : FileContent} {rest : Storage}
    {excl : String} (h : (decide (name ≠ excl) && goodFileB c) = false) :
    seenListOf ((name, c) :: rest) excl = seenListOf rest excl := by
  simp only [seenListOf, List.filter_cons, h]
  rfl

theorem seenListOf_cons_good {name : String} {c : FileContent} {rest : Storage}
    {excl : String} (hne : name ≠ excl) (hg : goodFileB c = true) :
    seenListOf ((name, c) :: rest) excl =
      (filePairsD c).map (fun q => hash_item q.1 q.2) ++ seenListOf rest excl := by
  simp only [seenListOf, List.filter_cons, hne, hg, decide_not, Bool.and_true]
  simp [hne]

theorem skipFileB_not_good {c : FileContent} (h : skipFileB c = true) :
    goodFileB c = false := by
  cases c <;> simp_all [skipFileB, goodFileB]

theorem loadLoop_ok : ∀ (files : Storage) (excl : String),
    (∀ p ∈ files, p.1 = excl ∨ goodFileB p.2 = true ∨ skipFileB p.2 = true) →
    ∀ (s : Finset String) (n : Nat),
      loadLoop files excl s n = .ok (s ∪ seenSetOf files excl, n + seenCountOf files excl) := by
  intro files
  induction files with
  | nil =>
      intro excl _ s n
      simp [loadLoop, seenSetOf, seenListOf, seenCountOf]
  | cons hd rest ih =>
      obtain ⟨name, c⟩ := hd
      intro excl hyp s n
      have hyprest : ∀ p ∈ rest, p.1 = excl ∨ goodFileB p.2 = true ∨ skipFileB p.2 = true :=
        fun p hp => hyp p (List.mem_cons_of_mem _ hp)
      by_cases hx : name = excl
      · have hdrop : (decide (name ≠ excl) && goodFileB c) = false := by simp [hx]
        have hset : seenSetOf ((name, c) :: rest) excl = seenSetOf rest excl := by
          rw [seenSetOf, seenListOf_cons_drop hdrop]; rfl
        have hcnt : seenCountOf ((name, c) :: rest) excl = seenCountOf rest excl := by
          rw [seenCountOf, seenListOf_cons_drop hdrop]
          rfl
        rw [show loadLoop ((name, c) :: rest) excl s n = loadLoop rest excl s n from by
              simp [loadLoop, hx],
            ih excl hyprest s n, hset, hcnt]
      · rcases hyp (name, c) (by simp) with h1 | h2 | h3
        · exact absurd h1 hx
        · rw [show loadLoop ((name, c) :: rest) excl s n =
                loadLoop rest excl
                  ((filePairsD c).foldl (fun acc q => insert (hash_item q.1 q.2) acc) s)
                  (n + (filePairsD c).length) from by
              simp [loadLoop, hx, readFilePairs_good h2],
            ih excl hyprest _ _, foldl_insert_eq_union]
          have hset : seenSetOf ((name, c) :: rest) excl =
              ((filePairsD c).map fun q => hash_item q.1 q.2).toFinset ∪ seenSetOf rest excl := by
            rw [seenSetOf, seenListOf_cons_good hx h2, List.toFinset_append]; rfl
          have hcnt : seenCountOf ((name, c) :: rest) excl =
              (filePairsD c).length + seenCountOf rest excl := by
            rw [seenCountOf, seenListOf_cons_good hx h2, List.length_append, List.length_map]
            rfl
          rw [hset, hcnt, Finset.union_assoc, Nat.add_assoc]
        · have hgood : goodFileB c = false := skipFileB_not_good h3
          have hdrop : (decide (name ≠ excl) && goodFileB c) = false := by simp [hgood]
          have hset : seenSetOf ((name, c) :: rest) excl = seenSetOf rest excl := by
            rw [seenSetOf, seenListOf_cons_drop hdrop]; rfl
          have hcnt : seenCountOf ((name, c) :: rest) excl = seenCountOf rest excl := by
            rw [seenCountOf, seenListOf_cons_drop hdrop]
            rfl
          have hre : readFilePairs c = .caught := by
            cases c <;> simp_all [skipFileB, readFilePairs]
          rw [show loadLoop ((name, c) :: rest) excl s n = loadLoop rest excl s n from by
                simp [loadLoop, hx, hre],
              ih excl hyprest s n, hset, hcnt]

theorem load_previous_articles_ok (σ : Storage) (excl : String)
    (h : ∀ p ∈ σ, p.1 = excl ∨ goodFileB p.2 = true ∨ skipFileB p.2 = true) :
    load_previous_articles σ excl = .ok (seenSetOf σ excl, seenCountOf σ excl) := by
  rw [load_previous_articles, loadLoop_ok σ excl h ∅ 0]
  simp

end HermesRelay

namespace HermesRelay

/-! ## Lemmas about the Ingestion Filter -/

theorem processItem_drop {st : IngestState} {item : RawEntry}
    (h : strip (item.title?.getD "") = "" ∨ strip (item.link?.getD "") = "") :
    processItem st item = st := by
  simp only [processItem]
  rw [if_pos h]

theorem processItem_dup {st : IngestState} {item : RawEntry}
    (h1 : ¬(strip (item.title?.getD "") = "" ∨ strip (item.link?.getD "") = ""))
    (h2 : hash_item (strip (item.title?.getD "")) (strip (item.link?.getD "")) ∈ st.seen) :
    processItem st item = { st with skipped_count := st.skipped_count + 1 } := by
  simp only [processItem]
  rw [if_neg h1, if_pos h2]

theorem processItem_new {st : IngestState} {item : RawEntry}
    (h1 : ¬(strip (item.title?.getD "") = "" ∨ strip (item.link?.getD "") = ""))
    (h2 : hash_item (strip (item.title?.getD "")) (strip (item.link?.getD "")) ∉ st.seen) :
    processItem st item =
      { st with
        seen := insert (hash_item (strip (item.title?.getD "")) (strip (item.link?.getD ""))) st.seen
        new_count := st.new_count + 1
        all_items := st.all_items ++
          [⟨strip (item.title?.getD ""), strip (item.link?.getD ""),
            item.published?.getD (item.updated?.getD ""), item.summary?.getD ""⟩] } := by
  simp only [processItem]
  rw [if_neg h1, if_neg h2]

/-- The invariant the filter maintains over its state, relative to the
seen-set S0 it started from. -/
structure IngestInv (S0 : Finset String) (st : IngestState) : Prop where
  mono : S0 ⊆ st.seen
  trimmed : ∀ a ∈ st.all_items, TrimmedA a
  fp_seen : ∀ a ∈ st.all_items, fpOfA a ∈ st.seen
  fresh : ∀ a ∈ st.all_items, fpOfA a ∉ S0
  nodupFP : (st.all_items.map fpOfA).Nodup

theorem processItem_inv {S0 : Finset String} {st : IngestState}
    (h : IngestInv S0 st) (item : RawEntry) : IngestInv S0 (processItem st item) := by
  by_cases h1 : strip (item.title?.getD "") = "" ∨ strip (item.link?.getD "") = ""
  · rw [processItem_drop h1]; exact h
  · by_cases h2 : hash_item (strip (item.title?.getD "")) (strip (item.link?.getD "")) ∈ st.seen
    · rw [processItem_dup h1 h2]
      exact ⟨h.mono, h.trimmed, h.fp_seen, h.fresh, h.nodupFP⟩
    · rw [processItem_new h1 h2]
      push_neg at h1
      obtain ⟨ht, hl⟩ := h1
      constructor
      · exact h.mono.trans (Finset.subset_insert _ _)
      · intro a ha
        rw [List.mem_append] at ha
        rcases ha with ha | ha
        · exact h.trimmed a ha
        · rw [List.mem_singleton] at ha
          subst ha
          exact ⟨ht, hl, strip_idem _, strip_idem _⟩
      · intro a ha
        rw [List.mem_append] at ha
        rcases ha with ha | ha
        · exact Finset.mem_insert_of_mem (h.fp_seen a ha)
        · rw [List.mem_singleton] at ha
          subst ha
          exact Finset.mem_insert_self _ _
      · intro a ha
        rw [List.mem_append] at ha
        rcases ha with ha | ha
        · exact h.fresh a ha
        · rw [List.mem_singleton] at ha
          subst ha
          exact fun hmem => h2 (h.mono hmem)
      · rw [List.map_append]
        refine List.Nodup.append h.nodupFP (by simp) ?_
        intro x hx hy
        rw [List.mem_map] at hx
        obtain ⟨a, ha, hfa⟩ := hx
        simp only [List.map_cons, List.map_nil, List.mem_singleton] at hy
        subst hy
        apply h2
        have hm := h.fp_seen a ha
        rw [hfa] at hm
        exact hm

theorem foldl_processItem_inv {S0 : Finset String} :
    ∀ (entries : List RawEntry) (st : IngestState),
      IngestInv S0 st → IngestInv S0 (entries.foldl processItem st) := by
  intro entries
  induction entries with
  | nil => intro st h; exact h
  | cons e rest ih => intro st h; exact ih _ (processItem_inv h e)

theorem processFeed_inv {S0 : Finset String} {st : IngestState}
    (h : IngestInv S0 st) (feed : FeedResult) : IngestInv S0 (processFeed st feed) := by
  cases feed with
  | error e => exact h
  | ok entries => exact foldl_processItem_inv entries st h

theorem foldl_processFeed_inv {S0 : Finset String} :
    ∀ (feeds : List FeedResult) (st : IngestState),
      IngestInv S0 st → IngestInv S0 (feeds.foldl processFeed st) := by
  intro feeds
  induction feeds with
  | nil => intro st h; exact h
  | cons f rest ih => intro st h; exact ih _ (processFeed_inv h f)

theorem fetchLoop_inv (feeds : List FeedResult) (S0 : Finset String) :
    IngestInv S0 (fetchLoop feeds S0) := by
  apply foldl_processFeed_inv
  exact ⟨Finset.Subset.refl S0, by simp, by simp, by simp, by simp⟩

theorem fetchLoop_pairs_nodup (feeds : List FeedResult) (S0 : Finset String) :
    ((fetchLoop feeds S0).all_items.map pairOfA).Nodup := by
  have h := (fetchLoop_inv feeds S0).nodupFP
  have heq : (fetchLoop feeds S0).all_items.map fpOfA =
      ((fetchLoop feeds S0).all_items.map pairOfA).map fun q => hash_item q.1 q.2 := by
    rw [List.map_map]
    rfl
  rw [heq] at h
  exact List.Nodup.of_map _ h

end HermesRelay

namespace HermesRelay

/-! ## Round-trip lemmas: entries our writer produced read back exactly -/

theorem pairOfJson_serialize {a : Article} (h : TrimmedA a) :
    pairOfJson (serializeArticle a) = some (a.title, a.link) := by
  obtain ⟨h1, h2, h3, h4⟩ := h
  show (if strip a.title ≠ "" ∧ strip a.link ≠ "" then some (strip a.title, strip a.link)
        else none) = some (a.title, a.link)
  rw [h3, h4, if_pos ⟨h1, h2⟩]

theorem articleObjB_serialize (a : Article) : articleObjB (serializeArticle a) = true := rfl

theorem goodFileB_serialize (items : List Article) :
    goodFileB (.content (serialize items)) = true := by
  show wellShapedB (serialize items) = true
  show (items.map serializeArticle).all articleObjB = true
  rw [List.all_eq_true]
  intro j hj
  rw [List.mem_map] at hj
  obtain ⟨a, _, rfl⟩ := hj
  exact articleObjB_serialize a

theorem filterMap_eq_map_of {α β : Type _} (f : α → Option β) (g : α → β) :
    ∀ (l : List α), (∀ x ∈ l, f x = some (g x)) → l.filterMap f = l.map g := by
  intro l
  induction l with
  | nil => intro _; rfl
  | cons a t ih =>
      intro h
      have ha := h a (List.mem_cons_self a t)
      simp [List.filterMap_cons, ha, ih fun x hx => h x (List.mem_cons_of_mem _ hx)]

theorem filePairsD_serialize {items : List Article} (h : ∀ a ∈ items, TrimmedA a) :
    filePairsD (.content (serialize items)) = items.map pairOfA := by
  show (items.map serializeArticle).filterMap pairOfJson = items.map pairOfA
  rw [List.filterMap_map]
  exact filterMap_eq_map_of _ _ items fun a ha => pairOfJson_serialize (h a ha)

/-! ## Lemmas about the Run Output Writer and the file store -/

theorem lookupFile_writeFile_self (σ : Storage) (k : String) (v : FileContent) :
    lookupFile (writeFile σ k v) k = some v := by
  unfold lookupFile writeFile
  rw [List.find?_append]
  have hnone : (σ.filter fun p => decide (p.1 ≠ k)).find? (fun p => p.1 == k) = none := by
    rw [List.find?_eq_none]
    intro x hx
    have hmem := List.of_mem_filter hx
    simp at hmem ⊢
    exact hmem
  rw [hnone]
  simp [List.find?_cons]

theorem find?_filter_ne (σ : Storage) (k k' : String) (h : k' ≠ k) :
    (σ.filter fun p => decide (p.1 ≠ k)).find? (fun p => p.1 == k') =
      σ.find? (fun p => p.1 == k') := by
  induction σ with
  | nil => rfl
  | cons q rest ih =>
      rw [List.filter_cons]
      by_cases hq : q.1 = k
      · rw [if_neg (by simp [hq])]
        rw [ih, List.find?_cons]
        have hk : (q.1 == k') = false := by
          rw [hq]
          exact beq_eq_false_iff_ne.mpr (Ne.symm h)
        rw [hk]
      · rw [if_pos (by simp [hq])]
        rw [List.find?_cons, List.find?_cons]
        cases hqk : (q.1 == k') with
        | true => rfl
        | false => exact ih

theorem lookupFile_writeFile_ne (σ : Storage) (k k' : String) (v : FileContent)
    (h : k' ≠ k) : lookupFile (writeFile σ k v) k' = lookupFile σ k' := by
  unfold lookupFile writeFile
  rw [List.find?_append, find?_filter_ne σ k k' h]
  have h2 : List.find? (fun p => p.1 == k') [(k, v)] = none := by
    simp [List.find?_cons, beq_eq_false_iff_ne.mpr (Ne.symm h)]
  rw [h2]
  cases σ.find? fun p => p.1 == k' <;> rfl

end HermesRelay

namespace HermesRelay

/-! ## Preservation of the ledger invariant across whole runs -/

theorem seenListOf_eq_allPairs (σ : Storage) (excl : String)
    (hgood : ∀ p ∈ σ, goodFileB p.2 = true) :
    seenListOf σ excl =
      (allPairs (σ.filter fun p => decide (p.1 ≠ excl))).map fun q => hash_item q.1 q.2 := by
  have hfc : (σ.filter fun p => decide (p.1 ≠ excl) && goodFileB p.2) =
      σ.filter fun p => decide (p.1 ≠ excl) :=
    List.filter_congr fun p hp => by rw [hgood p hp, Bool.and_true]
  rw [seenListOf, hfc, allPairs, List.map_flatMap]

theorem mem_seenSet_of_pair {σ : Storage} {excl : String}
    (hgood : ∀ p ∈ σ, goodFileB p.2 = true) {q : String × String}
    (hq : q ∈ allPairs (σ.filter fun p => decide (p.1 ≠ excl))) :
    hash_item q.1 q.2 ∈ seenSetOf σ excl := by
  rw [seenSetOf, List.mem_toFinset, seenListOf_eq_allPairs σ excl hgood]
  exact List.mem_map_of_mem _ hq

theorem sublist_flatMap {α β : Type _} (f : α → List β) {l1 l2 : List α}
    (h : List.Sublist l1 l2) : List.Sublist (l1.flatMap f) (l2.flatMap f) := by
  induction h with
  | slnil => exact List.Sublist.refl _
  | cons a h ih =>
      rw [List.flatMap_cons]
      exact ih.trans (List.sublist_append_right _ _)
  | cons₂ a h ih =>
      rw [List.flatMap_cons, List.flatMap_cons]
      exact List.Sublist.append_left ih _

theorem goodStorage_nil : GoodStorage [] :=
  ⟨fun p hp => absurd hp (by simp), List.nodup_nil⟩

theorem goodStorage_files_good {σ : Storage} (h : GoodStorage σ) :
    ∀ p ∈ σ, goodFileB p.2 = true := by
  intro p hp
  obtain ⟨items, he, _⟩ := h.1 p hp
  rw [he]
  exact goodFileB_serialize items

theorem runOnce_good {σ : Storage} (hσ : GoodStorage σ) (key : String)
    (feeds : List FeedResult) :
    runOnce σ key feeds =
      .ok (save_output key (fetchLoop feeds (seenSetOf σ key)).all_items σ) ∧
    GoodStorage (save_output key (fetchLoop feeds (seenSetOf σ key)).all_items σ) := by
  have hgood := goodStorage_files_good hσ
  have hload := load_previous_articles_ok σ key fun p hp => Or.inr (Or.inl (hgood p hp))
  have hinv := fetchLoop_inv feeds (seenSetOf σ key)
  constructor
  · show (match fetch_and_parse σ key feeds with
          | Except.error e => Except.error e
          | Except.ok st => Except.ok (save_output key st.all_items σ)) =
        Except.ok (save_output key (fetchLoop feeds (seenSetOf σ key)).all_items σ)
    show (match (match load_previous_articles σ key with
                 | Except.error e => Except.error e
                 | Except.ok prev => Except.ok (fetchLoop feeds prev.1)) with
          | Except.error e => Except.error e
          | Except.ok st => Except.ok (save_output key st.all_items σ)) =
        Except.ok (save_output key (fetchLoop feeds (seenSetOf σ key)).all_items σ)
    rw [hload]
  · by_cases hempty : (fetchLoop feeds (seenSetOf σ key)).all_items = []
    · rw [save_output, if_pos hempty]
      exact hσ
    · rw [save_output, if_neg hempty]
      constructor
      · intro p hp
        rw [writeFile, List.mem_append] at hp
        rcases hp with hp | hp
        · exact hσ.1 p (List.mem_of_mem_filter hp)
        · rw [List.mem_singleton] at hp
          subst hp
          exact ⟨(fetchLoop feeds (seenSetOf σ key)).all_items, rfl, hinv.trimmed⟩
      · have hAll : allPairs (writeFile σ key
            (.content (serialize (fetchLoop feeds (seenSetOf σ key)).all_items))) =
            allPairs (σ.filter fun p => decide (p.1 ≠ key)) ++
              (fetchLoop feeds (seenSetOf σ key)).all_items.map pairOfA := by
          rw [writeFile, allPairs, List.flatMap_append]
          congr 1
          simp [filePairsD_serialize hinv.trimmed]
        rw [hAll]
        refine List.Nodup.append ?_ (fetchLoop_pairs_nodup feeds _) ?_
        · exact List.Nodup.sublist (sublist_flatMap _ (List.filter_sublist σ)) hσ.2
        · intro q hq1 hq2
          rw [List.mem_map] at hq2
          obtain ⟨a, ha, rfl⟩ := hq2
          have hfp : fpOfA a ∈ seenSetOf σ key := by
            have hm := mem_seenSet_of_pair hgood hq1
            simpa [pairOfA, fpOfA] using hm
          exact hinv.fresh a ha hfp

theorem runAll_good : ∀ (rs : List (String × List FeedResult)) (σ0 σ : Storage),
    GoodStorage σ0 → runAll rs σ0 = .ok σ → GoodStorage σ := by
  intro rs
  induction rs with
  | nil =>
      intro σ0 σ h0 hrun
      injection hrun with h
      subst h
      exact h0
  | cons r rest ih =>
      intro σ0 σ h0 hrun
      obtain ⟨key, feeds⟩ := r
      obtain ⟨hrunOnce, hg1⟩ := runOnce_good h0 key feeds
      have heq : runAll ((key, feeds) :: rest) σ0 =
          runAll rest (save_output key (fetchLoop feeds (seenSetOf σ0 key)).all_items σ0) := by
        show (match runOnce σ0 key feeds with
              | Except.error e => Except.error e
              | Except.ok σ' => runAll rest σ') =
            runAll rest (save_output key (fetchLoop feeds (seenSetOf σ0 key)).all_items σ0)
        rw [hrunOnce]
      rw [heq] at hrun
      exact ih _ σ hg1 hrun

end HermesRelay

namespace HermesRelay

/-! ## Remaining support lemmas -/

theorem seenSetOf_perm {σ σ' : Storage} (excl : String) (h : σ.Perm σ') :
    seenSetOf σ excl = seenSetOf σ' excl := by
  rw [seenSetOf, seenSetOf]
  exact List.toFinset_eq_of_perm _ _ (List.Perm.flatMap_right _ (h.filter _))

/-- A feed source whose retrieval and parse succeeded. -/
def isOkFeed : FeedResult → Bool
  | .ok _ => true
  | .error _ => false

theorem foldl_processFeed_filter : ∀ (feeds : List FeedResult) (st : IngestState),
    feeds.foldl processFeed st = (feeds.filter isOkFeed).foldl processFeed st := by
  intro feeds
  induction feeds with
  | nil => intro st; rfl
  | cons f rest ih =>
      intro st
      cases f with
      | error e =>
          rw [List.foldl_cons, List.filter_cons]
          show rest.foldl processFeed st = _
          rw [if_neg (by simp [isOkFeed])]
          exact ih st
      | ok entries =>
          rw [List.foldl_cons, List.filter_cons, if_pos (by simp [isOkFeed]), List.foldl_cons]
          exact ih _

/-! ## Concrete inputs used by the examples and witnesses -/

def exampleX : RawEntry := ⟨some "X", some "http://a", none, none, none⟩

def exampleY : RawEntry := ⟨some "Y", some "http://b", none, none, none⟩

def exampleZ : RawEntry := ⟨some "Z", some "http://c", none, none, none⟩

def examplePrior : Storage :=
  [("hermes_signal_2025-01-01.json", .content (serialize [⟨"X", "http://a", "", ""⟩]))]

def exampleToday : String := "hermes_signal_2025-01-02.json"

def exampleFeeds : List FeedResult := [.ok [exampleX, exampleY], .ok [exampleY]]

def demoRuns : List (String × List FeedResult) :=
  [("hermes_signal_2026-10-12.json", [.ok [exampleX, exampleY]]),
   ("hermes_signal_2026-10-13.json", [.ok [exampleX, exampleZ]])]

def demoStorage : Storage :=
  [("hermes_signal_2026-10-12.json",
     .content (serialize [⟨"X", "http://a", "", ""⟩, ⟨"Y", "http://b", "", ""⟩])),
   ("hermes_signal_2026-10-13.json",
     .content (serialize [⟨"Z", "http://c", "", ""⟩]))]

end HermesRelay

namespace HermesRelay

set_option maxRecDepth 20000

/-! ## The claims -/

/-- C1: for any sequence of pipeline runs starting from an empty ledger (each
run loads all prior ledger entries except today's, ingests its feeds, and
writes at most one new entry), the union of all articles across the ledger's
entries contains no two articles with an equal (trimmed title, trimmed link)
pair. -/
theorem no_duplicate_ever_admitted (rs : List (String × List FeedResult))
    (σ : Storage) (h : runAll rs [] = .ok σ) : (allPairs σ).Nodup :=
  (runAll_good rs [] σ goodStorage_nil h).2

/-- Witness for C1: two concrete runs on consecutive dates, the second
re-fetching an already-seen article; the resulting ledger has no duplicate
identity. -/
theorem no_duplicate_ever_admitted_witness : (allPairs demoStorage).Nodup :=
  no_duplicate_ever_admitted demoRuns demoStorage (by rfl)

/-- C2 counterexample: fingerprint equality is NOT equivalent to equality of
the trimmed (title, link) pairs.  hash_item joins title and link with "-" and
hashes without trimming, so the distinct pairs ("a-b", "c") and ("a", "b-c")
produce the identical key "a-b-c" and hence the identical digest. -/
theorem fingerprint_identity_iff_false :
    ¬ ∀ t1 l1 t2 l2 : String,
        (hash_item t1 l1 = hash_item t2 l2 ↔
          (strip t1, strip l1) = (strip t2, strip l2)) := by
  intro h
  have hcol : hash_item "a-b" "c" = hash_item "a" "b-c" := rfl
  exact absurd ((h "a-b" "c" "a" "b-c").mp hcol) (by decide)

/-- C2 amended: hash_item is a pure function of the joined key
title ++ "-" ++ link — equal keys always give equal digests — and the join is
ambiguous: the distinct pairs ("a-b", "c") and ("a", "b-c") share a
fingerprint with certainty, not merely with hash-collision probability.
hash_item itself performs no trimming. -/
theorem fingerprint_key_congruence :
    (∀ t1 l1 t2 l2 : String, t1 ++ "-" ++ l1 = t2 ++ "-" ++ l2 →
        hash_item t1 l1 = hash_item t2 l2) ∧
    (hash_item "a-b" "c" = hash_item "a" "b-c" ∧
      ("a-b", "c") ≠ (("a", "b-c") : String × String)) :=
  ⟨fun _ _ _ _ h => congrArg sha256hex h, rfl, by decide⟩

/-- Witness for the amended C2, at a concrete ambiguous key. -/
theorem fingerprint_key_congruence_witness :
    hash_item "x" "y-z" = hash_item "x-y" "z" :=
  fingerprint_key_congruence.1 "x" "y-z" "x-y" "z" (by decide)

/-- C3 counterexample: hash_item does not trim its inputs before hashing:
hash_item " a" "b" differs from hash_item (strip " a") (strip "b"). -/
theorem hash_item_does_not_trim :
    ¬ ∀ t l : String, hash_item t l = hash_item (strip t) (strip l) := by
  intro h
  exact absurd (h " a" "b") (by decide)

/-- C3 amended: trimming happens at hash_item's call sites, not inside it;
the fingerprints the pipeline actually computes — hash_item applied to
stripped fields — are invariant under further trimming. -/
theorem pipeline_fingerprint_trim_stable (t l : String) :
    hash_item (strip t) (strip l) = hash_item (strip (strip t)) (strip (strip l)) := by
  rw [strip_idem, strip_idem]

/-- C4: on a ledger whose non-excluded entries are all readable and
well-shaped, load_previous_articles succeeds and returns exactly the set of
fingerprints of the stored articles whose trimmed title and link are both
non-empty, entries matching the excluded identifier skipped; and the
resulting set is invariant under permutation of the scan order. -/
theorem ledger_reader_exact (σ : Storage) (excl : String)
    (h : ∀ p ∈ σ, p.1 = excl ∨ goodFileB p.2 = true) :
    load_previous_articles σ excl = .ok (seenSetOf σ excl, seenCountOf σ excl) ∧
    ∀ σ' : Storage, σ.Perm σ' → seenSetOf σ' excl = seenSetOf σ excl := by
  constructor
  · exact load_previous_articles_ok σ excl fun p hp => (h p hp).imp id Or.inl
  · intro σ' hperm
    exact (seenSetOf_perm excl hperm).symm

def wLedger : Storage :=
  [("hermes_signal_2025-01-01.json", .content (serialize [⟨"X", "http://a", "", ""⟩])),
   ("hermes_signal_2025-01-02.json", .content (serialize [⟨"Y", "http://b", "", ""⟩]))]

/-- Witness for C4 on a two-entry ledger excluding a third name. -/
theorem ledger_reader_exact_witness :
    load_previous_articles wLedger "hermes_signal_2025-01-03.json" =
      .ok (seenSetOf wLedger "hermes_signal_2025-01-03.json",
           seenCountOf wLedger "hermes_signal_2025-01-03.json") :=
  (ledger_reader_exact wLedger "hermes_signal_2025-01-03.json" (by decide)).1

/-- C5 counterexample: a ledger entry whose JSON decodes to an unexpected
shape (here the number 3, which Python cannot iterate) raises an uncaught
TypeError and aborts the whole reader — it is not skipped with a warning. -/
theorem ledger_reader_shape_abort :
    load_previous_articles
      [("hermes_signal_2025-01-01.json", FileContent.content (Json.num 3))]
      "hermes_signal_2025-01-02.json" = .error PyErr.typeError := rfl

/-- C5 amended: the reader never aborts on entries whose failures the except
clause catches — missing files (FileNotFoundError) and JSON parse failures
(JSONDecodeError) are skipped with a warning, their contribution simply
absent — and it returns the union over the remaining readable entries; but
an entry with undecodable bytes or a decoded value of unexpected shape
raises an uncaught error and aborts the run. -/
theorem ledger_reader_skips_caught (σ : Storage) (excl : String)
    (h : ∀ p ∈ σ, p.1 = excl ∨ goodFileB p.2 = true ∨ skipFileB p.2 = true) :
    load_previous_articles σ excl = .ok (seenSetOf σ excl, seenCountOf σ excl) :=
  load_previous_articles_ok σ excl h

def wLedger2 : Storage :=
  [("hermes_signal_2025-01-01.json", FileContent.badJson),
   ("hermes_signal_2025-01-02.json", .content (serialize [⟨"Y", "http://b", "", ""⟩]))]

/-- Witness for the amended C5: a corrupt-JSON entry is skipped and the good
entry's fingerprints are still returned. -/
theorem ledger_reader_skips_caught_witness :
    load_previous_articles wLedger2 "hermes_signal_2025-01-03.json" =
      .ok (seenSetOf wLedger2 "hermes_signal_2025-01-03.json",
           seenCountOf wLedger2 "hermes_signal_2025-01-03.json") :=
  ledger_reader_skips_caught wLedger2 "hermes_signal_2025-01-03.json" (by decide)

end HermesRelay

namespace HermesRelay

set_option maxRecDepth 20000

/-- C6: the per-entry behaviour of the Ingestion Filter.  An entry whose
trimmed title or link is empty is dropped with no effect at all; an entry
whose fingerprint is already in the seen-set only increments skipped_count
(the duplicate counter); any other entry has its fingerprint inserted, is
appended to the admitted list, and increments new_count.  On the spec's
example — prior ledger entry [X], a run fetching [X, Y] and [Y] from two
sources — the run admits exactly [Y] with new_count 1 and duplicate count 2. -/
theorem ingestion_filter_behavior :
    (∀ (st : IngestState) (item : RawEntry),
        strip (item.title?.getD "") = "" ∨ strip (item.link?.getD "") = "" →
        processItem st item = st) ∧
    (∀ (st : IngestState) (item : RawEntry),
        ¬(strip (item.title?.getD "") = "" ∨ strip (item.link?.getD "") = "") →
        hash_item (strip (item.title?.getD "")) (strip (item.link?.getD "")) ∈ st.seen →
        processItem st item = { st with skipped_count := st.skipped_count + 1 }) ∧
    (∀ (st : IngestState) (item : RawEntry),
        ¬(strip (item.title?.getD "") = "" ∨ strip (item.link?.getD "") = "") →
        hash_item (strip (item.title?.getD "")) (strip (item.link?.getD "")) ∉ st.seen →
        processItem st item =
          { st with
            seen := insert (hash_item (strip (item.title?.getD ""))
              (strip (item.link?.getD ""))) st.seen
            new_count := st.new_count + 1
            all_items := st.all_items ++
              [⟨strip (item.title?.getD ""), strip (item.link?.getD ""),
                item.published?.getD (item.updated?.getD ""), item.summary?.getD ""⟩] }) ∧
    (fetch_and_parse examplePrior exampleToday exampleFeeds).map
        (fun st => (st.all_items, st.new_count, st.skipped_count)) =
      .ok ([⟨"Y", "http://b", "", ""⟩], 1, 2) :=
  ⟨fun _ _ h => processItem_drop h,
   fun _ _ h1 h2 => processItem_dup h1 h2,
   fun _ _ h1 h2 => processItem_new h1 h2,
   by rfl⟩

def wStateA : IngestState := ⟨∅, [], 0, 0⟩

def wStateB : IngestState := ⟨{hash_item "X" "http://a"}, [], 0, 0⟩

def wItemNoTitle : RawEntry := ⟨none, some "http://x", none, none, none⟩

/-- Witness for C6: each branch of the filter exercised at concrete inputs. -/
theorem ingestion_filter_behavior_witness :
    processItem wStateA wItemNoTitle = wStateA ∧
    processItem wStateB exampleX = { wStateB with skipped_count := wStateB.skipped_count + 1 } ∧
    processItem wStateB exampleY =
      { wStateB with
        seen := insert (hash_item "Y" "http://b") wStateB.seen
        new_count := wStateB.new_count + 1
        all_items := wStateB.all_items ++ [⟨"Y", "http://b", "", ""⟩] } :=
  ⟨ingestion_filter_behavior.1 wStateA wItemNoTitle (by decide),
   ingestion_filter_behavior.2.1 wStateB exampleX (by decide) (by decide),
   ingestion_filter_behavior.2.2.1 wStateB exampleY (by decide) (by decide)⟩

/-- C7: a retrieval or parse failure in one feed source never aborts the
others: the whole ingestion result over any source sequence equals the
result over just its non-failing sources. -/
theorem source_failure_isolated (σ : Storage) (output_json : String)
    (feeds : List FeedResult) :
    fetch_and_parse σ output_json feeds =
      fetch_and_parse σ output_json (feeds.filter isOkFeed) := by
  show (match load_previous_articles σ output_json with
        | Except.error e => Except.error e
        | Except.ok prev => Except.ok (fetchLoop feeds prev.1)) =
       (match load_previous_articles σ output_json with
        | Except.error e => Except.error e
        | Except.ok prev => Except.ok (fetchLoop (feeds.filter isOkFeed) prev.1))
  cases load_previous_articles σ output_json with
  | error e => rfl
  | ok prev =>
      show Except.ok (fetchLoop feeds prev.1) = Except.ok (fetchLoop (feeds.filter isOkFeed) prev.1)
      rw [fetchLoop, fetchLoop, foldl_processFeed_filter]

/-- C8: the Run Output Writer writes nothing on an empty admitted list,
leaving the store untouched; otherwise it writes exactly the one entry named
by the run-date key with exactly the serialized admitted articles,
overwriting any file of that name and touching no other key. -/
theorem writer_frame (output_json : String) (items : List Article) (σ : Storage) :
    (items = [] → save_output output_json items σ = σ) ∧
    (items ≠ [] →
      lookupFile (save_output output_json items σ) output_json =
        some (FileContent.content (serialize items)) ∧
      ∀ k : String, k ≠ output_json →
        lookupFile (save_output output_json items σ) k = lookupFile σ k) := by
  constructor
  · intro h
    rw [save_output, if_pos h]
  · intro h
    rw [save_output, if_neg h]
    exact ⟨lookupFile_writeFile_self σ output_json _,
           fun k hk => lookupFile_writeFile_ne σ output_json k _ hk⟩

def wStore : Storage := [("hermes_signal_2025-01-01.json", FileContent.badJson)]

/-- Witness for C8: both the empty and the non-empty branch at concrete
inputs, including the frame condition on the other key. -/
theorem writer_frame_witness :
    save_output "hermes_signal_2025-01-02.json" [] wStore = wStore ∧
    lookupFile (save_output "hermes_signal_2025-01-02.json"
        [⟨"Y", "http://b", "", ""⟩] wStore) "hermes_signal_2025-01-02.json" =
      some (FileContent.content (serialize [⟨"Y", "http://b", "", ""⟩])) ∧
    lookupFile (save_output "hermes_signal_2025-01-02.json"
        [⟨"Y", "http://b", "", ""⟩] wStore) "hermes_signal_2025-01-01.json" =
      lookupFile wStore "hermes_signal_2025-01-01.json" :=
  ⟨(writer_frame "hermes_signal_2025-01-02.json" [] wStore).1 rfl,
   ((writer_frame "hermes_signal_2025-01-02.json" [⟨"Y", "http://b", "", ""⟩] wStore).2
      (by decide)).1,
   ((writer_frame "hermes_signal_2025-01-02.json" [⟨"Y", "http://b", "", ""⟩] wStore).2
      (by decide)).2 "hermes_signal_2025-01-01.json" (by decide)⟩

/-- C9: the writer keys the entry by the UTC calendar date
(datetime.utcnow), but the downstream stage looks the file up by the
machine-local calendar date (date.today).  At 2026-10-13T04:30Z (minute
29864430) on a machine at UTC-5, the writer produces
hermes_signal_2026-10-13.json while the downstream stage asks for
hermes_signal_2026-10-12.json; the two agree for every instant only when
the machine's offset is zero. -/
theorem run_date_key_divergence :
    OUTPUT_JSON 29864430 = "hermes_signal_2026-10-13.json" ∧
    todayFile 29864430 (-300) = "hermes_signal_2026-10-12.json" ∧
    OUTPUT_JSON 29864430 ≠ todayFile 29864430 (-300) ∧
    ∀ minutes : Nat, todayFile minutes 0 = OUTPUT_JSON minutes := by
  refine ⟨by decide, by decide, by decide, ?_⟩
  intro minutes
  show "hermes_signal_" ++ localToday minutes 0 ++ ".json" =
    "hermes_signal_" ++ utcToday minutes ++ ".json"
  rw [localToday, utcToday]
  norm_num

/-- C10: every article persisted in any ledger entry written by the Run
Output Writer over any sequence of runs from an empty ledger has non-empty
title and link already equal to their own trimmed forms, so replay re-trims
are no-ops and every persisted article is fingerprintable. -/
theorem persisted_articles_trimmed (rs : List (String × List FeedResult))
    (σ : Storage) (p : String × FileContent)
    (h : runAll rs [] = .ok σ) (hp : p ∈ σ) :
    ∃ items : List Article, p.2 = FileContent.content (serialize items) ∧
      ∀ a ∈ items,
        a.title ≠ "" ∧ a.link ≠ "" ∧ strip a.title = a.title ∧ strip a.link = a.link :=
  (runAll_good rs [] σ goodStorage_nil h).1 p hp

/-- Witness for C10 at the first entry the demo runs wrote. -/
theorem persisted_articles_trimmed_witness :
    ∃ items : List Article,
      ("hermes_signal_2026-10-12.json",
        FileContent.content (serialize [⟨"X", "http://a", "", ""⟩,
          ⟨"Y", "http://b", "", ""⟩])).2 = FileContent.content (serialize items) ∧
      ∀ a ∈ items,
        a.title ≠ "" ∧ a.link ≠ "" ∧ strip a.title = a.title ∧ strip a.link = a.link :=
  persisted_articles_trimmed demoRuns demoStorage
    ("hermes_signal_2026-10-12.json",
      FileContent.content (serialize [⟨"X", "http://a", "", ""⟩, ⟨"Y", "http://b", "", ""⟩]))
    (by rfl) (List.mem_cons_self _ _)

end HermesRelay
